import Mathlib

/-!
Shallow embedding of the palletizer registry (a self-hosted Cargo package
registry) and proofs about it.

Conventions used throughout this development:

* Rust byte slices and file contents are modelled as `List Nat`, each element
  a byte value below 256 where it matters.
* Fallible Rust functions returning `Result<T, Error>` are modelled with
  `RResult` below; a Rust `panic!` (including `unwrap()` on an error value)
  is modelled by the dedicated `RResult.panics` outcome, which is not an
  error value returned to the caller.
* File-system and git effects are modelled by explicit state passing on
  `RegState` (registry) and `GitRepo` (git committer).  Reading a file that
  exists always succeeds in the model; I/O failures of the operating system
  are outside the model.
* External library functions (serde_json, the toml crate, the semver crate)
  are not part of this repository; operations that invoke them are
  parameterised over the corresponding decode/parse function, and concrete
  theorems instantiate that parameter with a function that is documented at
  the instantiation site.
-/

/-- Error kinds of the registry.  The source constructs errors as formatted
strings via `Error::new(format!(..))`; each distinct construction site is
modelled as one constructor here. -/
inductive RegErr where
  /-- A dependency names a registry that is not in `allowed_registries`. -/
  | disallowedRegistry : RegErr
  /-- The version is already present in the index file. -/
  | duplicateVersion : RegErr
  /-- `write_new_file` target already exists (crate blob already present). -/
  | blobExists : RegErr
  /-- Opening the index file for read+write failed (file missing). -/
  | crateNotFound : RegErr
  /-- No entry with the requested version exists in the index file. -/
  | versionNotFound : RegErr
  /-- Cargo.toml not found in the package archive. -/
  | manifestMissing : RegErr
  /-- The git repository has no usable signature configured. -/
  | sigMissing : RegErr
  /-- The git repository is in a non-clean state (rebase, merge, ...). -/
  | repoBusy : RegErr
  /-- The git index already contains staged changes. -/
  | indexDirty : RegErr
deriving DecidableEq, Repr

/-- Outcome of a fallible Rust computation: a returned value, a returned
error value, or a panic (process abort, e.g. `unwrap()` on `Err` or an
explicit `panic!`).  A panic is not an error value returned to the caller. -/
inductive RResult (α : Type) where
  | ok : α → RResult α
  | err : RegErr → RResult α
  | panics : RResult α
deriving DecidableEq, Repr

/-- Dependency kind, `src/index.rs` (`normal`, `build` or `dev`). -/
inductive DependencyKind where
  | normal : DependencyKind
  | build : DependencyKind
  | dev : DependencyKind
deriving DecidableEq, Repr

/-- One dependency record of an index entry, `struct Dependency` in
`src/index.rs`.  The `version` field carries the semver requirement and is
renamed to `version_req` by the serde attribute when serialised. -/
structure Dependency where
  name : String
  version : String
  features : List String
  optional : Bool
  default_features : Bool
  target : Option String
  kind : DependencyKind
  registry : Option String
  package : Option String
deriving DecidableEq, Repr

/-- One index entry (one JSON line of a per-crate index file),
`struct Entry` in `src/index.rs`.  The Rust `BTreeMap<String, Vec<String>>`
for `features` is modelled as an association list; it represents the map
faithfully when its keys are strictly sorted. -/
structure Entry where
  name : String
  version : String
  dependencies : List Dependency
  checksum_sha256 : String
  features : List (String × List String)
  yanked : Bool
  links : Option String
deriving DecidableEq, Repr

/-- UTF-8 encoding of one unicode code point, as the Rust `format!` machinery
produces when a `char` is written into a `String`. -/
def charUtf8 (c : Char) : List Nat :=
  let n := c.toNat
  if n < 0x80 then [n]
  else if n < 0x800 then [0xc0 + n / 64, 0x80 + n % 64]
  else if n < 0x10000 then [0xe0 + n / 4096, 0x80 + n / 64 % 64, 0x80 + n % 64]
  else [0xf0 + n / 262144, 0x80 + n / 4096 % 64, 0x80 + n / 64 % 64, 0x80 + n % 64]

/-- Byte content of a Rust `&str` (its UTF-8 encoding). -/
def strBytes (s : String) : List Nat :=
  s.data.flatMap charUtf8

/-- Lowercase one byte the way `u8::make_ascii_lowercase` does: only the
ASCII letters `A`-`Z` change; every other byte passes through unchanged. -/
def asciiLowerByte (b : Nat) : Nat :=
  if 65 ≤ b ∧ b ≤ 90 then b + 32 else b

/-- Lowercasing of a whole byte string, `str::make_ascii_lowercase`. -/
def asciiLower (bs : List Nat) : List Nat :=
  bs.map asciiLowerByte

/-- UTF-8 bytes produced by writing the Rust expression `b as char` (for a
byte `b`) into a `String`: the code point with value `b` is UTF-8 encoded,
which re-encodes bytes at and above 0x80 as two bytes. -/
def byteAsCharUtf8 (b : Nat) : List Nat :=
  if b < 0x80 then [b] else [0xc0 + b / 64, 0x80 + b % 64]

/-- Path resolver `Registry::index_path_rel` of `src/registry.rs`, acting on
the byte content of the crate name.  The Rust function matches on
`name.as_bytes()`, panics on the empty name (modelled as `none`), formats the
relative path (writing prefix bytes with `{}` on `a as char`, hence
`byteAsCharUtf8`), and finally applies `make_ascii_lowercase` to the whole
formatted path. -/
def index_path_rel (name : List Nat) : Option (List Nat) :=
  match name with
  | [] => none
  | [_] => some (asciiLower (strBytes "1/" ++ name))
  | [_, _] => some (asciiLower (strBytes "2/" ++ name))
  | a :: _ :: _ :: [] =>
      some (asciiLower (strBytes "3/" ++ byteAsCharUtf8 a ++ strBytes "/" ++ name))
  | a :: b :: c :: d :: _ =>
      some (asciiLower (byteAsCharUtf8 a ++ byteAsCharUtf8 b ++ strBytes "/" ++
        byteAsCharUtf8 c ++ byteAsCharUtf8 d ++ strBytes "/" ++ name))

/-- Path table of the specification (section 4.1), stated on the raw bytes of
the name: `1/<n>`, `2/<n>`, `3/<n[0]>/<n>` or `<n[0..2]>/<n[2..4]>/<n>` with
the name case-folded to lowercase ASCII and non-ASCII bytes passing through
unchanged.  This definition follows the words of the specification and is
compared against `index_path_rel`, which follows the source. -/
def index_path_spec (name : List Nat) : List Nat :=
  let n := asciiLower name
  match n with
  | [] => []
  | [_] => strBytes "1/" ++ n
  | [_, _] => strBytes "2/" ++ n
  | x :: _ :: _ :: [] => strBytes "3/" ++ [x] ++ strBytes "/" ++ n
  | _ :: _ :: _ :: _ :: _ =>
      n.take 2 ++ strBytes "/" ++ (n.drop 2).take 2 ++ strBytes "/" ++ n

/-- On-disk state of one registry, as far as the modelled operations observe
it: the per-crate index files keyed by their resolved relative path, the
crate blob store keyed by crate name and version (one blob per
`<crate_dir>/<name>/<name>-<version>.crate` path), and the number of commits
reachable from the HEAD of the index repository. -/
structure RegState where
  files : List (List Nat × List Entry)
  crates : List ((String × String) × List Nat)
  commits : Nat
deriving DecidableEq, Repr

/-- Replacement of the value stored under key `p` in an association list,
modelling an in-place rewrite of one file. -/
def replaceFile (files : List (List Nat × List Entry)) (p : List Nat)
    (es : List Entry) : List (List Nat × List Entry) :=
  files.map (fun kv => if kv.1 = p then (p, es) else kv)

/-- Publish operation `Registry::add_crate_with_metadata` of
`src/registry.rs`, with the effects on `RegState` made explicit and in the
order of the source: dependency-registry check, path resolution (a panic on
the empty name), opening the index file with create+append (which creates an
empty file when absent), duplicate-version check against the re-read index,
blob write with create-new semantics, index line append, git commit.
Serialisation of the metadata (which cannot fail for this data model) and
file locking are not modelled.  The commit is modelled as always succeeding;
`add_commit` itself is modelled separately with its failure modes. -/
def add_crate_with_metadata (allowed : List String) (st : RegState)
    (metadata : Entry) (data : List Nat) : RegState × RResult Unit :=
  if metadata.dependencies.any (fun d =>
      match d.registry with
      | some r => !(allowed.contains r)
      | none => false) then
    (st, .err .disallowedRegistry)
  else
    match index_path_rel (strBytes metadata.name) with
    | none => (st, .panics)
    | some p =>
      let st1 := if (st.files.lookup p).isSome then st
                 else { st with files := st.files ++ [(p, [])] }
      let index := ((st1.files.lookup p).getD [])
      if index.any (fun e => e.version == metadata.version) then
        (st1, .err .duplicateVersion)
      else if (st1.crates.lookup (metadata.name, metadata.version)).isSome then
        (st1, .err .blobExists)
      else
        let st2 := { st1 with
          crates := st1.crates ++ [((metadata.name, metadata.version), data)] }
        let st3 := { st2 with files := replaceFile st2.files p (index ++ [metadata]) }
        ({ st3 with commits := st3.commits + 1 }, .ok ())

/-- Yank operation `Registry::yank_crate` of `src/registry.rs`: resolve the
path (panic on the empty name), open the file read+write (an error when
absent), read all entries, set `yanked` on every entry whose version matches
and is not yet yanked; error when no version matched; when at least one entry
changed, rewrite the file and commit, returning `true`; otherwise leave the
file untouched, create no commit, and return `false`. -/
def yank_crate (st : RegState) (name version : String) : RegState × RResult Bool :=
  match index_path_rel (strBytes name) with
  | none => (st, .panics)
  | some p =>
    match st.files.lookup p with
    | none => (st, .err .crateNotFound)
    | some index =>
      let found := index.countP (fun e => e.version == version)
      let changed := index.countP (fun e => e.version == version && !e.yanked)
      if found = 0 then (st, .err .versionNotFound)
      else if 0 < changed then
        let newIndex := index.map (fun e =>
          if e.version == version then { e with yanked := true } else e)
        ({ st with files := replaceFile st.files p newIndex,
                   commits := st.commits + 1 }, .ok true)
      else (st, .ok false)

/-- Unyank operation `Registry::unyank_crate` of `src/registry.rs`, the exact
mirror image of `yank_crate`: it clears `yanked` on every entry whose version
matches and is currently yanked. -/
def unyank_crate (st : RegState) (name version : String) : RegState × RResult Bool :=
  match index_path_rel (strBytes name) with
  | none => (st, .panics)
  | some p =>
    match st.files.lookup p with
    | none => (st, .err .crateNotFound)
    | some index =>
      let found := index.countP (fun e => e.version == version)
      let changed := index.countP (fun e => e.version == version && e.yanked)
      if found = 0 then (st, .err .versionNotFound)
      else if 0 < changed then
        let newIndex := index.map (fun e =>
          if e.version == version then { e with yanked := false } else e)
        ({ st with files := replaceFile st.files p newIndex,
                   commits := st.commits + 1 }, .ok true)
      else (st, .ok false)

/-- Splitting a byte stream at newline bytes, the semantics of Rust
`slice::split(|c| c == b'\n')`: the empty stream yields one empty segment,
and every newline byte separates two segments. -/
def splitOnNl : List Nat → List (List Nat)
  | [] => [[]]
  | c :: rest =>
    if c = 10 then [] :: splitOnNl rest
    else
      match splitOnNl rest with
      | s :: ss => (c :: s) :: ss
      | [] => [[c]]

/-- Sequencing of the per-line parser over a list of lines, the semantics of
collecting an iterator of `Result`s into `Result<Vec<_>>`: the first failing
line fails the whole read, and no partial prefix is returned. -/
def parseAll (parse : List Nat → Option Entry) :
    List (List Nat) → Option (List Entry)
  | [] => some []
  | l :: ls =>
    match parse l with
    | none => none
    | some e =>
      match parseAll parse ls with
      | none => none
      | some es => some (e :: es)

/-- Reader `registry::read_index` of `src/registry.rs`: slurp the stream,
split on newline bytes, drop empty lines, parse every remaining line,
failing as a whole if any line fails.  The per-line serde_json decoder is an
external library function and is passed in as `parse`; the distinct error
messages of the source are collapsed into `none`. -/
def registry_read_index (parse : List Nat → Option Entry) (data : List Nat) :
    Option (List Entry) :=
  parseAll parse ((splitOnNl data).filter (fun l => !l.isEmpty))

/-- Removal of one trailing carriage-return byte, as `BufRead::lines` does on
a line that was terminated by a newline. -/
def stripCr (l : List Nat) : List Nat :=
  if l.getLast? = some 13 then l.dropLast else l

/-- Lines of a byte stream under the semantics of Rust `BufRead::lines`:
segments between newline bytes; a segment terminated by a newline loses a
trailing carriage return; a final empty segment after a trailing newline is
not yielded; a final unterminated segment is yielded verbatim. -/
def rustLines (data : List Nat) : List (List Nat) :=
  let ss := splitOnNl data
  ss.dropLast.map stripCr ++
    (match ss.getLast? with
     | some [] => []
     | some l => [l]
     | none => [])

/-- Reader `index::read_index` of `src/index.rs`: iterate the lines of the
stream via `BufRead::lines` and parse every line (including empty ones),
failing as a whole if any line fails. -/
def index_read_index (parse : List Nat → Option Entry) (data : List Nat) :
    Option (List Entry) :=
  parseAll parse (rustLines data)

/-- Little-endian 32-bit value formed from the first four bytes of a list,
as `parse_crate` computes it; the defaults are never reached on the guarded
paths because the length checks come first. -/
def le32At (data : List Nat) : Nat :=
  data.getD 0 0 + data.getD 1 0 * 256 + data.getD 2 0 * 65536 +
    data.getD 3 0 * 16777216

/-- Framed publish-body parser `parse_crate` of `src/server/src/api_v1.rs`:
a little-endian 32-bit metadata length, that many bytes of JSON metadata, a
little-endian 32-bit blob length, and the crate blob, which must end exactly
at the last byte of the body.  The serde_json decoding of the metadata into
`NewCrateMeta` is external and passed in as `decodeMeta`; the error strings
of the source are abbreviated. -/
def parse_crate {μ : Type} (decodeMeta : List Nat → Option μ) (data : List Nat) :
    Except String (μ × List Nat) :=
  if data.length < 4 then .error "missing metadata JSON length"
  else
    let json_len := le32At data
    let data1 := data.drop 4
    if data1.length < json_len then .error "metadata shorter than declared"
    else
      let json := data1.take json_len
      let data2 := data1.drop json_len
      if data2.length < 4 then .error "missing crate tarball length"
      else
        let tarball_len := le32At data2
        let tarball := data2.drop 4
        if tarball.length ≠ tarball_len then .error "tarball length mismatch"
        else
          match decodeMeta json with
          | none => .error "failed to parse crate metadata"
          | some m => .ok (m, tarball)

/-- Package table of a manifest, `struct Package` in `src/manifest.rs`. -/
structure ManifestPackage where
  name : String
  version : String
deriving DecidableEq, Repr

/-- Dependency table of a manifest, `struct Dependency` in
`src/manifest.rs`. -/
structure ManifestDependency where
  version : String
  optional : Bool
  features : List String
  default_features : Bool
  package : Option String
  registry : Option String
deriving DecidableEq, Repr

/-- Per-target dependency tables, `struct Dependencies` in
`src/manifest.rs`; the Rust `BTreeMap`s are modelled as association lists. -/
structure Dependencies where
  dependencies : List (String × ManifestDependency)
  dev_dependencies : List (String × ManifestDependency)
  build_dependencies : List (String × ManifestDependency)
deriving DecidableEq, Repr

/-- Parsed package manifest, `struct Manifest` in `src/manifest.rs`. -/
structure Manifest where
  package : ManifestPackage
  links : Option String
  features : List (String × List String)
  dependencies : List (String × ManifestDependency)
  dev_dependencies : List (String × ManifestDependency)
  build_dependencies : List (String × ManifestDependency)
  target : List (String × Dependencies)
deriving DecidableEq, Repr

/-- Archive scan `extract_file` of `src/manifest.rs`, after the gzip and tar
layers (external libraries) have decoded the archive into an ordered list of
entry paths and contents: the first entry whose path equals the requested
path yields its contents; otherwise nothing is found.  Failures of the gzip
or tar decoders are separate error paths that the claims do not touch, so the
model takes the decoded entry list as input. -/
def extract_file (path : String) (archive : List (String × List Nat)) :
    Option (List Nat) :=
  (archive.find? (fun e => e.1 == path)).map (fun e => e.2)

/-- Manifest extraction `extract` of `src/manifest.rs`: look for
`<name>-<version>/Cargo.toml` in the archive; a missing entry is an error
returned to the caller, while the TOML parse of a found entry is followed by
`.unwrap()`, so a parse failure is a panic.  The TOML parser is the external
toml crate, passed in as `parseToml`. -/
def extract (parseToml : List Nat → Option Manifest) (name version : String)
    (archive : List (String × List Nat)) : RResult Manifest :=
  match extract_file (name ++ "-" ++ version ++ "/Cargo.toml") archive with
  | none => .err .manifestMissing
  | some data =>
    match parseToml data with
    | some m => .ok m
    | none => .panics

/-- State of the index git repository as `util::add_commit` observes it: a
tree is a list of path/content pairs in canonical order, so two trees are
equal exactly when git reports no delta between them.  `clean` is whether
`repo.state()` is `Clean`; `sigOk` is whether `repo.signature()` resolves;
`head` is the tree of the HEAD commit, or nothing for an unborn branch;
`index` is the staged tree; `commitCount` counts commits reachable from
HEAD. -/
structure GitRepo where
  clean : Bool
  sigOk : Bool
  head : Option (List (String × List Nat))
  index : List (String × List Nat)
  commitCount : Nat
deriving DecidableEq, Repr

/-- Staging one path into the git index (`Index::add_path`): the content at
the path replaces the existing stage entry or is appended. -/
def stagePath (tree : List (String × List Nat)) (file : String × List Nat) :
    List (String × List Nat) :=
  if (tree.lookup file.1).isSome then
    tree.map (fun kv => if kv.1 = file.1 then file else kv)
  else tree ++ [file]

/-- Git committer `util::add_commit` of `src/util.rs`, in source order:
resolve the signature, resolve HEAD (unborn branch becomes no parent), get
the index, refuse when the repository state is not clean, refuse when the
staged index differs from the HEAD tree (or, with an unborn HEAD, when the
index is non-empty), then stage the supplied files, write the tree, and
commit it onto HEAD.  Each supplied file is a path together with the content
on disk that `add_path` would stage. -/
def add_commit (repo : GitRepo) (files : List (String × List Nat)) :
    GitRepo × RResult Unit :=
  if !repo.sigOk then (repo, .err .sigMissing)
  else if !repo.clean then (repo, .err .repoBusy)
  else if (match repo.head with
           | some tree => tree != repo.index
           | none => !repo.index.isEmpty) then (repo, .err .indexDirty)
  else
    let newIndex := files.foldl stagePath repo.index
    ({ repo with index := newIndex, head := some newIndex,
                 commitCount := repo.commitCount + 1 }, .ok ())

/-- Greatest semver-parseable version of a list of index entries:
`entries.iter().filter_map(parse semver).max_by_key(clone)` from `search` in
`src/server/src/api_v1.rs`.  The semver parser and its order come from the
external semver crate, passed in as `parse` over a linearly ordered version
type. -/
def max_version {V : Type} [LinearOrder V] (parse : String → Option V)
    (es : List Entry) : Option V :=
  (es.filterMap (fun e => parse e.version)).max?

/-- Substring test of Rust `str::contains(&str)`: the needle occurs
contiguously in the haystack (case-sensitive; the empty needle always
occurs). -/
def containsStr (hay q : String) : Bool :=
  decide (q.data <:+: hay.data)

/-- Search handler core `search` of `src/server/src/api_v1.rs` on a registry
snapshot (the crate names in discovery order, each with its parsed index):
keep the crates whose name contains the query as a substring, and for each
the greatest semver-parseable version; the reported total is the number of
kept crates before truncation to `per_page` (default 10).  Crates for which
no version parses are dropped by the `filter_map`. -/
def search {V : Type} [LinearOrder V] (parse : String → Option V)
    (reg : List (String × List Entry)) (q : String) (per_page : Option Nat) :
    List (String × V) × Nat :=
  let crates := reg.filterMap (fun nc =>
    if containsStr nc.1 q then (max_version parse nc.2).map (fun v => (nc.1, v))
    else none)
  (crates.take (per_page.getD 10), crates.length)

/-- Digit-string value for the simple semver model: a non-empty all-digit
string without a redundant leading zero. -/
def digitsToNat (cs : List Char) : Option Nat :=
  if cs.isEmpty then none
  else if cs.any (fun c => !c.isDigit) then none
  else if 1 < cs.length ∧ cs.head? = some '0' then none
  else some (cs.foldl (fun n c => n * 10 + (c.toNat - 48)) 0)

/-- Numeric model of the external semver crate, restricted to plain
`MAJOR.MINOR.PATCH` versions with each component below 1000000 and no
pre-release or build metadata; such versions are encoded as one natural
number whose order agrees with semver precedence.  On every version string
appearing in this development the model agrees with the semver crate; in
particular it rejects every string that is not a semver version. -/
def semverSimple (s : String) : Option Nat :=
  match s.data.splitOn '.' with
  | [x, y, z] =>
    match digitsToNat x, digitsToNat y, digitsToNat z with
    | some a, some b, some c =>
      if a < 1000000 ∧ b < 1000000 ∧ c < 1000000 then
        some (a * 1000000000000 + b * 1000000 + c)
      else none
    | _, _, _ => none
  | _ => none

/-- JSON values, used as the target of the serde encoders of `src/index.rs`.
Objects carry their fields in serialisation order.  Numbers do not occur in
the index entry schema, so they are omitted. -/
inductive Json where
  | null : Json
  | bool : Bool → Json
  | str : String → Json
  | arr : List Json → Json
  | obj : List (String × Json) → Json
deriving Repr

/-- Serialisation tag of `DependencyKind`: serde `rename_all = snake_case`
yields the lowercase variant names. -/
def kindTag : DependencyKind → String
  | .normal => "normal"
  | .build => "build"
  | .dev => "dev"

/-- Serde encoding of an `Option<String>` field without skip attributes:
`None` becomes JSON null. -/
def encodeOptStr : Option String → Json
  | none => .null
  | some s => .str s

/-- Serde serialisation of `index::Dependency`: fields in declaration order,
with the `version` field renamed to `version_req` by its serde attribute. -/
def encodeDependency (d : Dependency) : List (String × Json) :=
  [("name", .str d.name),
   ("version_req", .str d.version),
   ("features", .arr (d.features.map .str)),
   ("optional", .bool d.optional),
   ("default_features", .bool d.default_features),
   ("target", encodeOptStr d.target),
   ("kind", .str (kindTag d.kind)),
   ("registry", encodeOptStr d.registry),
   ("package", encodeOptStr d.package)]

/-- Serde serialisation of the `features` map: a JSON object whose fields are
the map entries in order (a `BTreeMap` iterates in ascending key order, which
the association list models when its keys are strictly sorted). -/
def encodeFeatures (fs : List (String × List String)) : Json :=
  .obj (fs.map (fun kv => (kv.1, .arr (kv.2.map .str))))

/-- Serde serialisation of `index::Entry`: fields in declaration order, with
the renames `vers`, `deps` and `cksum` from the serde attributes. -/
def encodeEntry (e : Entry) : List (String × Json) :=
  [("name", .str e.name),
   ("vers", .str e.version),
   ("deps", .arr (e.dependencies.map (fun d => .obj (encodeDependency d)))),
   ("cksum", .str e.checksum_sha256),
   ("features", encodeFeatures e.features),
   ("yanked", .bool e.yanked),
   ("links", encodeOptStr e.links)]

/-- String extraction from a JSON value (serde string visitor). -/
def getStr : Json → Option String
  | .str s => some s
  | _ => none

/-- Boolean extraction from a JSON value (serde bool visitor). -/
def getBool : Json → Option Bool
  | .bool b => some b
  | _ => none

/-- Serde decoding of an `Option<String>` field: a missing field and a null
value both decode to `None`; a string decodes to `Some`. -/
def getOptStr : Option Json → Option (Option String)
  | none => some none
  | some .null => some none
  | some (.str s) => some (some s)
  | some _ => none

/-- Serde decoding of `DependencyKind` from its snake_case tag. -/
def decodeKind : Json → Option DependencyKind
  | .str "normal" => some .normal
  | .str "build" => some .build
  | .str "dev" => some .dev
  | _ => none

/-- Serde decoding of a list of JSON strings; the first element that is not
a string fails the whole list. -/
def decodeStrs : List Json → Option (List String)
  | [] => some []
  | j :: js =>
    match getStr j with
    | none => none
    | some s =>
      match decodeStrs js with
      | none => none
      | some ss => some (s :: ss)

/-- Serde decoding of a `Vec<String>`. -/
def decodeStrList : Json → Option (List String)
  | .arr xs => decodeStrs xs
  | _ => none

/-- Field names accepted by the derived deserialiser of
`index::Dependency` (its schema is strict: `deny_unknown_fields`). -/
def dependencyKeys : List String :=
  ["name", "version_req", "features", "optional", "default_features",
   "target", "kind", "registry", "package"]

/-- Serde deserialisation of `index::Dependency`: reject unknown and
duplicate fields, require every non-`Option` field, decode each field by
type.  Inputs other than objects are rejected. -/
def decodeDependency : Json → Option Dependency
  | .obj fields =>
    if fields.all (fun kv => dependencyKeys.contains kv.1) ∧
        (fields.map Prod.fst).Nodup then do
      let name ← (fields.lookup "name").bind getStr
      let version ← (fields.lookup "version_req").bind getStr
      let features ← (fields.lookup "features").bind decodeStrList
      let optional ← (fields.lookup "optional").bind getBool
      let default_features ← (fields.lookup "default_features").bind getBool
      let target ← getOptStr (fields.lookup "target")
      let kind ← (fields.lookup "kind").bind decodeKind
      let registry ← getOptStr (fields.lookup "registry")
      let package ← getOptStr (fields.lookup "package")
      pure { name, version, features, optional, default_features, target,
             kind, registry, package }
    else none
  | _ => none

/-- Ordered insertion into the association-list model of
`BTreeMap<String, Vec<String>>`; an existing key is overwritten in place, as
`BTreeMap::insert` does. -/
def insertSorted (l : List (String × List String)) (kv : String × List String) :
    List (String × List String) :=
  match l with
  | [] => [kv]
  | hd :: tl =>
    if kv.1 < hd.1 then kv :: hd :: tl
    else if kv.1 = hd.1 then kv :: tl
    else hd :: insertSorted tl kv

/-- Serde decoding of the fields of the `features` object, in order. -/
def decodeFeaturePairs : List (String × Json) → Option (List (String × List String))
  | [] => some []
  | kv :: rest =>
    match decodeStrList kv.2 with
    | none => none
    | some v =>
      match decodeFeaturePairs rest with
      | none => none
      | some ps => some ((kv.1, v) :: ps)

/-- Serde deserialisation of the `features` map: decode every field value as
a string list and insert the pairs into a `BTreeMap` in field order. -/
def decodeFeatures : Json → Option (List (String × List String))
  | .obj fields =>
    (decodeFeaturePairs fields).map (fun ps => ps.foldl insertSorted [])
  | _ => none

/-- Serde decoding of a list of dependency objects; the first failing
element fails the whole list. -/
def decodeDepList : List Json → Option (List Dependency)
  | [] => some []
  | j :: js =>
    match decodeDependency j with
    | none => none
    | some d =>
      match decodeDepList js with
      | none => none
      | some ds => some (d :: ds)

/-- Serde decoding of a `Vec<Dependency>`. -/
def decodeDeps : Json → Option (List Dependency)
  | .arr xs => decodeDepList xs
  | _ => none

/-- Field names accepted by the derived deserialiser of `index::Entry`
(strict schema: `deny_unknown_fields`). -/
def entryKeys : List String :=
  ["name", "vers", "deps", "cksum", "features", "yanked", "links"]

/-- Serde deserialisation of `index::Entry`: reject unknown and duplicate
fields, require every non-`Option` field, decode each field by type. -/
def decodeEntry : Json → Option Entry
  | .obj fields =>
    if fields.all (fun kv => entryKeys.contains kv.1) ∧
        (fields.map Prod.fst).Nodup then do
      let name ← (fields.lookup "name").bind getStr
      let version ← (fields.lookup "vers").bind getStr
      let dependencies ← (fields.lookup "deps").bind decodeDeps
      let checksum_sha256 ← (fields.lookup "cksum").bind getStr
      let features ← (fields.lookup "features").bind decodeFeatures
      let yanked ← (fields.lookup "yanked").bind getBool
      let links ← getOptStr (fields.lookup "links")
      pure { name, version, dependencies, checksum_sha256, features, yanked,
             links }
    else none
  | _ => none

/-- Sample entry used by concrete witnesses and counterexamples. -/
def entry0 : Entry :=
  { name := "foo", version := "1.0.0", dependencies := [],
    checksum_sha256 := "00", features := [], yanked := false, links := none }

/-- Sample entry with an empty crate name. -/
def entryEmptyName : Entry :=
  { entry0 with name := "" }

/-- Empty registry state. -/
def st0 : RegState := ⟨[], [], 0⟩

/-- Helper: `b as char` writes the single byte back for ASCII bytes. -/
theorem byteAsCharUtf8_ascii {b : Nat} (h : b < 128) : byteAsCharUtf8 b = [b] := by
  simp [byteAsCharUtf8, h]

/-- Helper: lowercasing distributes over concatenation. -/
theorem asciiLower_append (x y : List Nat) :
    asciiLower (x ++ y) = asciiLower x ++ asciiLower y :=
  List.map_append asciiLowerByte x y

/-- C3 (amended): for every non-empty crate name consisting of ASCII bytes,
the resolved index path follows the table of the specification with the name
lowercased; names with non-ASCII bytes among the first four are excluded
because the source re-encodes those prefix bytes as two-byte UTF-8 sequences
(see the counterexample). -/
theorem index_path_rel_ascii_spec (name : List Nat) (hne : name ≠ [])
    (hascii : ∀ b ∈ name, b < 128) :
    index_path_rel name = some (index_path_spec name) := by
  match name with
  | [] => exact absurd rfl hne
  | [a] =>
    simp [index_path_rel, index_path_spec, asciiLower, strBytes, charUtf8,
      asciiLowerByte]
  | [a, b] =>
    simp [index_path_rel, index_path_spec, asciiLower, strBytes, charUtf8,
      asciiLowerByte]
  | [a, b, c] =>
    have ha : a < 128 := hascii a (by simp)
    simp [index_path_rel, index_path_spec, byteAsCharUtf8_ascii ha,
      asciiLower, strBytes, charUtf8, asciiLowerByte]
  | a :: b :: c :: d :: rest =>
    have ha : a < 128 := hascii a (by simp)
    have hb : b < 128 := hascii b (by simp)
    have hc : c < 128 := hascii c (by simp)
    have hd : d < 128 := hascii d (by simp)
    simp [index_path_rel, index_path_spec, byteAsCharUtf8_ascii ha,
      byteAsCharUtf8_ascii hb, byteAsCharUtf8_ascii hc, byteAsCharUtf8_ascii hd,
      asciiLower, strBytes, charUtf8, asciiLowerByte]

/-- C3 witness: the five-byte name `cargo` resolves to `ca/rg/cargo`. -/
theorem index_path_rel_ascii_spec_witness :
    ([99, 97, 114, 103, 111] : List Nat) ≠ [] ∧
    index_path_rel [99, 97, 114, 103, 111] =
      some (index_path_spec [99, 97, 114, 103, 111]) :=
  ⟨by decide, index_path_rel_ascii_spec [99, 97, 114, 103, 111] (by decide)
    (by decide)⟩

/-- C3 counterexample: the name with byte content `[195, 169, 97]` (the Rust
string consisting of the letter e with acute accent followed by `a`, a valid
three-byte crate name) resolves to a path whose middle component is the
two-byte re-encoding `[195, 131]` of the first name byte, not the raw first
byte `195` that the specification table prescribes. -/
theorem index_path_nonascii_cex :
    index_path_rel [195, 169, 97] =
      some (strBytes "3/" ++ [195, 131] ++ strBytes "/" ++ [195, 169, 97]) ∧
    index_path_spec [195, 169, 97] =
      strBytes "3/" ++ [195] ++ strBytes "/" ++ [195, 169, 97] ∧
    index_path_rel [195, 169, 97] ≠ some (index_path_spec [195, 169, 97]) := by
  refine ⟨by decide, by decide, by decide⟩

/-- C4 (amended): the empty crate name makes the path resolver panic (the
source runs `panic!` on the empty byte pattern), so registry operations given
an empty crate name panic instead of returning an error value; publish
reaches the resolver only when every dependency registry is allowed. -/
theorem empty_name_panics (allowed : List String) (st : RegState)
    (metadata : Entry) (data : List Nat) (version : String)
    (hname : metadata.name = "")
    (hdeps : ∀ d ∈ metadata.dependencies, ∀ r, d.registry = some r →
      allowed.contains r = true) :
    index_path_rel (strBytes "") = none ∧
    add_crate_with_metadata allowed st metadata data = (st, .panics) ∧
    yank_crate st metadata.name version = (st, .panics) ∧
    unyank_crate st metadata.name version = (st, .panics) := by
  have hpath : index_path_rel (strBytes metadata.name) = none := by
    rw [hname]; rfl
  have hany : metadata.dependencies.any (fun d =>
      match d.registry with
      | some r => !(allowed.contains r)
      | none => false) = false := by
    rw [List.any_eq_false]
    intro d hd
    cases hreg : d.registry with
    | none => simp
    | some r =>
      have h := hdeps d hd r hreg
      simp only [hreg]
      simpa using h
  refine ⟨rfl, ?_, ?_, ?_⟩
  · simp only [add_crate_with_metadata, hany, Bool.false_eq_true, if_false,
      hpath]
  · simp only [yank_crate, hpath]
  · simp only [unyank_crate, hpath]

/-- C4 witness: concrete application at an entry whose name is empty. -/
theorem empty_name_panics_witness :
    entryEmptyName.name = "" ∧
    add_crate_with_metadata [] st0 entryEmptyName [] = (st0, .panics) :=
  ⟨rfl, (empty_name_panics [] st0 entryEmptyName [] "1.0.0" rfl
    (by intro d hd; simp [entryEmptyName, entry0] at hd)).2.1⟩

/-- C4 counterexample: publishing an entry whose crate name is empty panics;
the outcome is `RResult.panics`, not an `InvalidName` (or any other) error
value returned to the caller, which falsifies the claim as stated. -/
theorem empty_name_error_cex :
    add_crate_with_metadata [] st0 entryEmptyName [] = (st0, RResult.panics) ∧
    yank_crate st0 "" "1.0.0" = (st0, RResult.panics) := by
  refine ⟨by decide, by decide⟩

/-- Byte content of a file that is not valid TOML (it starts with a bare
equals sign), used as the malformed manifest in the C6 failing input. -/
def badTomlBytes : List Nat := strBytes "= not toml"

/-- C6: evaluating `extract` at the failing input.  The archive contains the
entry `foo-1.0.0/Cargo.toml` whose contents are not valid TOML, so the
external TOML parser rejects it; the instantiation `fun _ => none` agrees
with the toml crate on the single input it is applied to here.  The source
then calls `.unwrap()` on the parse result, so the outcome is a panic, where
the claim (and the specification, section 4.2) promise a `ManifestParse`
error value.  The second conjunct shows the half of the claim the code does
satisfy: a missing manifest entry is an error value returned to the
caller. -/
theorem extract_malformed_toml_panics :
    extract (fun _ => none) "foo" "1.0.0"
      [("foo-1.0.0/Cargo.toml", badTomlBytes)] = RResult.panics ∧
    extract (fun _ => none) "foo" "1.0.0"
      [("other-2.0.0/Cargo.toml", [])] = RResult.err .manifestMissing := by
  refine ⟨rfl, rfl⟩

/-- C9: the git committer refuses with `RepoBusy` whenever the repository
state is not clean, and refuses with `IndexDirty` when the staged index
differs from the HEAD tree, or, for an unborn HEAD, when the index is
non-empty; in every refusal the returned repository is untouched (same HEAD,
same index, same commit count) and no commit is created.  The signature
lookup, which the source performs first, is assumed to succeed. -/
theorem add_commit_refusals (repo : GitRepo) (files : List (String × List Nat))
    (hsig : repo.sigOk = true) :
    (repo.clean = false → add_commit repo files = (repo, .err .repoBusy)) ∧
    (repo.clean = true → ∀ t, repo.head = some t → t ≠ repo.index →
      add_commit repo files = (repo, .err .indexDirty)) ∧
    (repo.clean = true → repo.head = none → repo.index ≠ [] →
      add_commit repo files = (repo, .err .indexDirty)) := by
  refine ⟨?_, ?_, ?_⟩
  · intro hclean
    simp [add_commit, hsig, hclean]
  · intro hclean t hhead hne
    simp [add_commit, hsig, hclean, hhead, hne]
  · intro hclean hhead hne
    simp [add_commit, hsig, hclean, hhead, hne]

/-- C9 witness: a repository mid-rebase is refused with `RepoBusy`, and a
clean repository whose index differs from the HEAD tree is refused with
`IndexDirty`. -/
theorem add_commit_refusals_witness :
    add_commit ⟨false, true, some [], [], 3⟩ [] =
      (⟨false, true, some [], [], 3⟩, .err .repoBusy) ∧
    add_commit ⟨true, true, some [], [("a", [1])], 3⟩ [] =
      (⟨true, true, some [], [("a", [1])], 3⟩, .err .indexDirty) :=
  ⟨(add_commit_refusals ⟨false, true, some [], [], 3⟩ [] rfl).1 rfl,
   (add_commit_refusals ⟨true, true, some [], [("a", [1])], 3⟩ [] rfl).2.1 rfl
     [] rfl (by decide)⟩

/-- Helper: when every dependency registry is allowed, the publish-time
dependency check finds nothing. -/
theorem deps_check_false (allowed : List String) (metadata : Entry)
    (hdeps : ∀ d ∈ metadata.dependencies, ∀ r, d.registry = some r →
      allowed.contains r = true) :
    metadata.dependencies.any (fun d =>
      match d.registry with
      | some r => !(allowed.contains r)
      | none => false) = false := by
  rw [List.any_eq_false]
  intro d hd
  cases hreg : d.registry with
  | none => simp
  | some r =>
    have h := hdeps d hd r hreg
    simp only [hreg]
    simpa using h

/-- C1: when the index file for the crate already holds an entry with the
published version, `add_crate_with_metadata` fails with the duplicate-version
error and returns with the registry state untouched — the index files, the
blob store and the commit count are all exactly as before, because the check
runs before the blob write, before the line append and before the commit.
The dependency-registry check, which the source runs first, is assumed to
pass. -/
theorem add_crate_duplicate_version (allowed : List String) (st : RegState)
    (metadata : Entry) (data : List Nat) (p : List Nat) (es : List Entry)
    (hdeps : ∀ d ∈ metadata.dependencies, ∀ r, d.registry = some r →
      allowed.contains r = true)
    (hpath : index_path_rel (strBytes metadata.name) = some p)
    (hfile : st.files.lookup p = some es)
    (hdup : ∃ e ∈ es, e.version = metadata.version) :
    add_crate_with_metadata allowed st metadata data =
      (st, .err .duplicateVersion) := by
  have hany := deps_check_false allowed metadata hdeps
  have hsome : (st.files.lookup p).isSome = true := by rw [hfile]; rfl
  have hdupb : es.any (fun e => e.version == metadata.version) = true := by
    rw [List.any_eq_true]
    obtain ⟨e, he, hv⟩ := hdup
    exact ⟨e, he, by simp [hv]⟩
  unfold add_crate_with_metadata
  rw [hany]
  simp only [Bool.false_eq_true, if_false, hpath, hfile, Option.isSome_some,
    if_true, Option.getD_some]
  rw [hdupb]
  simp

/-- Registry state holding one crate `foo-1.0.0`: its index file, its blob,
and the two commits of the publish scenario. -/
def stDup : RegState :=
  ⟨[(strBytes "3/f/foo", [entry0])], [(("foo", "1.0.0"), [104])], 2⟩

/-- C1 witness: republishing `foo-1.0.0` into `stDup` is refused with the
duplicate-version error and leaves the state untouched. -/
theorem add_crate_duplicate_version_witness :
    add_crate_with_metadata [] stDup entry0 [104] =
      (stDup, .err .duplicateVersion) :=
  add_crate_duplicate_version [] stDup entry0 [104] (strBytes "3/f/foo")
    [entry0] (by intro d hd; simp [entry0] at hd) (by decide) (by decide)
    ⟨entry0, by decide, rfl⟩

/-- Helper: unfolding of `List.lookup` over a cons cell with propositional
equality in place of the boolean test. -/
theorem lookup_cons (a k : List Nat) (w : List Entry)
    (tl : List (List Nat × List Entry)) :
    List.lookup a ((k, w) :: tl) = if a = k then some w else List.lookup a tl := by
  by_cases h : a = k
  · simp [List.lookup, h]
  · have hb : (a == k) = false := by simpa using h
    simp [List.lookup, hb, h]

/-- Helper: unfolding of `replaceFile` over a cons cell. -/
theorem replaceFile_cons (k p : List Nat) (w v : List Entry)
    (tl : List (List Nat × List Entry)) :
    replaceFile ((k, w) :: tl) p v =
      (if k = p then (p, v) else (k, w)) :: replaceFile tl p v := rfl

/-- Helper: rewriting a file that is present makes the rewritten content the
one found by a subsequent lookup. -/
theorem lookup_replaceFile (files : List (List Nat × List Entry)) (p : List Nat)
    (v es : List Entry) (h : files.lookup p = some es) :
    (replaceFile files p v).lookup p = some v := by
  induction files with
  | nil => simp [List.lookup] at h
  | cons hd tl ih =>
    obtain ⟨k, w⟩ := hd
    rw [lookup_cons] at h
    rw [replaceFile_cons]
    by_cases hk : k = p
    · rw [if_pos hk, lookup_cons, if_pos rfl]
    · rw [if_neg hk, lookup_cons, if_neg (Ne.symm hk)]
      rw [if_neg (Ne.symm hk)] at h
      exact ih h

/-- Helper: rewriting a key that does not occur changes nothing. -/
theorem replaceFile_not_mem (files : List (List Nat × List Entry))
    (p : List Nat) (es : List Entry) (h : p ∉ files.map Prod.fst) :
    replaceFile files p es = files := by
  induction files with
  | nil => rfl
  | cons hd tl ih =>
    obtain ⟨k, w⟩ := hd
    simp only [List.map_cons, List.mem_cons, not_or] at h
    rw [replaceFile_cons, if_neg (fun hk => h.1 hk.symm), ih h.2]

/-- Helper: rewriting a file with exactly its current content is the
identity, provided file paths are unique. -/
theorem replaceFile_self (files : List (List Nat × List Entry)) (p : List Nat)
    (es : List Entry) (h : files.lookup p = some es)
    (hnd : (files.map Prod.fst).Nodup) : replaceFile files p es = files := by
  induction files with
  | nil => rfl
  | cons hd tl ih =>
    obtain ⟨k, w⟩ := hd
    simp only [List.map_cons, List.nodup_cons] at hnd
    rw [lookup_cons] at h
    rw [replaceFile_cons]
    by_cases hk : k = p
    · subst hk
      rw [if_pos rfl] at h ⊢
      obtain rfl : w = es := by simpa using h
      rw [replaceFile_not_mem tl k w hnd.1]
    · rw [if_neg hk, if_neg (Ne.symm hk)] at *
      rw [ih h hnd.2]

/-- Helper: consecutive rewrites of the same file collapse to the last. -/
theorem replaceFile_replaceFile (files : List (List Nat × List Entry))
    (p : List Nat) (v w : List Entry) :
    replaceFile (replaceFile files p v) p w = replaceFile files p w := by
  simp only [replaceFile, List.map_map]
  apply List.map_congr_left
  intro kv _
  by_cases hk : kv.1 = p <;> simp [hk]

/-- Helper: a record update that writes the value a field already has is the
identity. -/
theorem entry_set_yanked_self (e : Entry) (v : Bool) (h : e.yanked = v) :
    { e with yanked := v } = e := by
  cases e
  subst h
  rfl

/-- Helper: evaluation of `yank_crate` when the file exists, the version
occurs, and at least one matching entry is not yet yanked: the file is
rewritten with every matching entry yanked, one commit is created, and the
operation reports `true`. -/
theorem yank_crate_eq (st : RegState) (name version : String) (p : List Nat)
    (es : List Entry) (hpath : index_path_rel (strBytes name) = some p)
    (hfile : st.files.lookup p = some es)
    (hf : 0 < es.countP (fun e => e.version == version))
    (hch : 0 < es.countP (fun e => e.version == version && !e.yanked)) :
    yank_crate st name version =
      ({ st with
          files := replaceFile st.files p (es.map (fun e =>
            if e.version == version then { e with yanked := true } else e)),
          commits := st.commits + 1 }, .ok true) := by
  have hf0 : ¬ es.countP (fun e => e.version == version) = 0 := by omega
  simp only [yank_crate, hpath, hfile]
  simp [hf0, hch]

/-- Helper: evaluation of `unyank_crate` in the symmetric situation. -/
theorem unyank_crate_eq (st : RegState) (name version : String) (p : List Nat)
    (es : List Entry) (hpath : index_path_rel (strBytes name) = some p)
    (hfile : st.files.lookup p = some es)
    (hf : 0 < es.countP (fun e => e.version == version))
    (hch : 0 < es.countP (fun e => e.version == version && e.yanked)) :
    unyank_crate st name version =
      ({ st with
          files := replaceFile st.files p (es.map (fun e =>
            if e.version == version then { e with yanked := false } else e)),
          commits := st.commits + 1 }, .ok true) := by
  have hf0 : ¬ es.countP (fun e => e.version == version) = 0 := by omega
  simp only [unyank_crate, hpath, hfile]
  simp [hf0, hch]

/-- C2 (amended): on an index file whose entries for version V are all
unyanked, yanking V and then unyanking V restores the file exactly (all
entries, all flags) while adding one commit per write; and when every entry
for V is already yanked, yank returns `Ok(false)` with the registry state
completely untouched — no file write and no commit.  The restoration claim
must be restricted to initially-unyanked matching entries: the counterexample
shows it fails as soon as a matching entry is already yanked. -/
theorem yank_unyank_roundtrip (st : RegState) (name version : String)
    (p : List Nat) (es : List Entry)
    (hpath : index_path_rel (strBytes name) = some p)
    (hfile : st.files.lookup p = some es)
    (hnd : (st.files.map Prod.fst).Nodup)
    (hfound : ∃ e ∈ es, e.version = version) :
    ((∀ e ∈ es, e.version = version → e.yanked = false) →
      ∃ st1, yank_crate st name version = (st1, .ok true) ∧
        unyank_crate st1 name version =
          ({ st with commits := st.commits + 2 }, .ok true)) ∧
    ((∀ e ∈ es, e.version = version → e.yanked = true) →
      yank_crate st name version = (st, .ok false)) := by
  obtain ⟨e0, he0, hv0⟩ := hfound
  have hf : 0 < es.countP (fun e => e.version == version) := by
    rw [List.countP_pos_iff]
    exact ⟨e0, he0, by simp [hv0]⟩
  have hf0 : ¬ es.countP (fun e => e.version == version) = 0 := by omega
  constructor
  · intro hall
    have hch : 0 < es.countP (fun e => e.version == version && !e.yanked) := by
      rw [List.countP_pos_iff]
      exact ⟨e0, he0, by simp [hv0, hall e0 he0 hv0]⟩
    have hyank := yank_crate_eq st name version p es hpath hfile hf hch
    refine ⟨_, hyank, ?_⟩
    have hfile1 : (replaceFile st.files p (es.map (fun e =>
        if e.version == version then { e with yanked := true } else e))).lookup p
        = some (es.map (fun e =>
          if e.version == version then { e with yanked := true } else e)) :=
      lookup_replaceFile st.files p _ es hfile
    have hf1 : 0 < (es.map (fun e =>
        if e.version == version then { e with yanked := true } else e)).countP
        (fun e => e.version == version) := by
      rw [List.countP_pos_iff]
      refine ⟨_, List.mem_map_of_mem _ he0, ?_⟩
      simp [hv0]
    have hch1 : 0 < (es.map (fun e =>
        if e.version == version then { e with yanked := true } else e)).countP
        (fun e => e.version == version && e.yanked) := by
      rw [List.countP_pos_iff]
      refine ⟨_, List.mem_map_of_mem _ he0, ?_⟩
      simp [hv0]
    have hun := unyank_crate_eq ({ st with
        files := replaceFile st.files p (es.map (fun e =>
          if e.version == version then { e with yanked := true } else e)),
        commits := st.commits + 1 }) name version p
      (es.map (fun e =>
        if e.version == version then { e with yanked := true } else e))
      hpath hfile1 hf1 hch1
    rw [hun]
    have hmap : (es.map (fun e =>
        if e.version == version then { e with yanked := true } else e)).map
        (fun e => if e.version == version then { e with yanked := false } else e)
        = es := by
      rw [List.map_map]
      have hpt : ∀ e ∈ es, ((fun e =>
          if e.version == version then { e with yanked := false } else e) ∘
          (fun e => if e.version == version then { e with yanked := true } else e)) e
          = id e := by
        intro e he
        by_cases hv : e.version = version
        · have hb : (e.version == version) = true := by simpa using hv
          simp only [Function.comp_apply, id_eq]
          rw [if_pos hb]
          dsimp only
          rw [if_pos hb]
          exact entry_set_yanked_self e false (hall e he hv)
        · have hb : (e.version == version) = false := by simpa using hv
          simp [hb, hv]
      rw [List.map_congr_left hpt, List.map_id]
    rw [hmap]
    rw [replaceFile_replaceFile, replaceFile_self st.files p es hfile hnd]
  · intro hall
    have hch : es.countP (fun e => e.version == version && !e.yanked) = 0 := by
      rw [List.countP_eq_zero]
      intro e he
      by_cases hv : e.version = version
      · simp [hv, hall e he hv]
      · simp [hv]
    simp only [yank_crate, hpath, hfile]
    simp [hf0, hch]

/-- Sample entry `foo-1.0.0` in the yanked state. -/
def entryYanked : Entry := { entry0 with yanked := true }

/-- Registry state whose only crate `foo-1.0.0` is already yanked. -/
def stYanked : RegState := ⟨[(strBytes "3/f/foo", [entryYanked])], [], 2⟩

/-- C2 witness: yanking the already-yanked `foo-1.0.0` returns `Ok(false)`
and leaves the registry state (file bytes and commit count) untouched. -/
theorem yank_unyank_roundtrip_witness :
    yank_crate stYanked "foo" "1.0.0" = (stYanked, .ok false) :=
  (yank_unyank_roundtrip stYanked "foo" "1.0.0" (strBytes "3/f/foo")
    [entryYanked] (by decide) (by decide) (by decide)
    ⟨entryYanked, by decide, rfl⟩).2 (by decide)

/-- C2 counterexample: on a file whose only entry for version `1.0.0` is
already yanked, yank followed by unyank does not restore the file — yank is
a no-op returning `Ok(false)` and unyank then clears the flag, so the final
file differs from the original.  The claim as stated (yank then unyank is
the identity on every index file) is therefore false. -/
theorem yank_unyank_not_identity_cex :
    yank_crate stYanked "foo" "1.0.0" = (stYanked, RResult.ok false) ∧
    (unyank_crate (yank_crate stYanked "foo" "1.0.0").1 "foo" "1.0.0").1.files =
      [(strBytes "3/f/foo", [{ entryYanked with yanked := false }])] ∧
    (unyank_crate (yank_crate stYanked "foo" "1.0.0").1 "foo" "1.0.0").1.files ≠
      stYanked.files := by
  refine ⟨by decide, by decide, by decide⟩

/-- Metadata slice of a publish body: the declared number of bytes following
the four-byte metadata length. -/
def metaBytes (data : List Nat) : List Nat :=
  (data.drop 4).take (le32At data)

/-- Blob slice of a publish body: everything after the metadata and the
four-byte blob length. -/
def blobBytes (data : List Nat) : List Nat :=
  ((data.drop 4).drop (le32At data)).drop 4

/-- Exact framing condition of a publish body: the body ends exactly at the
last byte of the blob declared by the two little-endian length headers. -/
def wellFramed (data : List Nat) : Prop :=
  data.length = 8 + le32At data + le32At ((data.drop 4).drop (le32At data))

/-- C7: `parse_crate` succeeds — returning the decoded metadata and the blob
slice — exactly when the body is well framed (it ends exactly at the last
byte of the declared blob) and the metadata bytes decode; and whenever the
body is not well framed (shorter than the declared lengths, or with bytes
left over after the blob) it returns a framing error. -/
theorem parse_crate_framing {μ : Type} (decodeMeta : List Nat → Option μ)
    (data : List Nat) :
    (¬ wellFramed data → ∃ msg, parse_crate decodeMeta data = .error msg) ∧
    (∀ m tb, parse_crate decodeMeta data = .ok (m, tb) ↔
      (wellFramed data ∧ decodeMeta (metaBytes data) = some m ∧
        tb = blobBytes data)) := by
  have l1 : (data.drop 4).length = data.length - 4 := List.length_drop 4 data
  have l2 : ((data.drop 4).drop (le32At data)).length =
      data.length - 4 - le32At data := by
    rw [List.length_drop, l1]
  have l3 : ((((data.drop 4)).drop (le32At data)).drop 4).length =
      data.length - 4 - le32At data - 4 := by
    rw [List.length_drop, l2]
  by_cases h1 : data.length < 4
  · have hw : ¬ wellFramed data := by unfold wellFramed; omega
    refine ⟨fun _ => ⟨"missing metadata JSON length", by simp [parse_crate, h1]⟩,
      fun m tb => ?_⟩
    apply iff_of_false
    · simp [parse_crate, h1]
    · exact fun h => hw h.1
  · by_cases h2 : (data.drop 4).length < le32At data
    · have hw : ¬ wellFramed data := by unfold wellFramed; omega
      refine ⟨fun _ => ⟨"metadata shorter than declared",
        by simp only [parse_crate, if_neg h1, if_pos h2]⟩, fun m tb => ?_⟩
      apply iff_of_false
      · simp only [parse_crate, if_neg h1, if_pos h2]
        exact fun h => by cases h
      · exact fun h => hw h.1
    · by_cases h3 : ((data.drop 4).drop (le32At data)).length < 4
      · have hw : ¬ wellFramed data := by unfold wellFramed; omega
        refine ⟨fun _ => ⟨"missing crate tarball length",
          by simp only [parse_crate, if_neg h1, if_neg h2, if_pos h3]⟩,
          fun m tb => ?_⟩
        apply iff_of_false
        · simp only [parse_crate, if_neg h1, if_neg h2, if_pos h3]
          exact fun h => by cases h
        · exact fun h => hw h.1
      · by_cases h4 : ((((data.drop 4)).drop (le32At data)).drop 4).length ≠
            le32At ((data.drop 4).drop (le32At data))
        · have hw : ¬ wellFramed data := by unfold wellFramed; omega
          refine ⟨fun _ => ⟨"tarball length mismatch",
            by simp only [parse_crate, if_neg h1, if_neg h2, if_neg h3,
              if_pos h4]⟩, fun m tb => ?_⟩
          apply iff_of_false
          · simp only [parse_crate, if_neg h1, if_neg h2, if_neg h3, if_pos h4]
            exact fun h => by cases h
          · exact fun h => hw h.1
        · have hw : wellFramed data := by unfold wellFramed; omega
          refine ⟨fun h => absurd hw h, fun m tb => ?_⟩
          simp only [parse_crate, if_neg h1, if_neg h2, if_neg h3, if_neg h4]
          cases hdec : decodeMeta ((data.drop 4).take (le32At data)) with
          | none =>
            apply iff_of_false
            · exact fun h => by cases h
            · rintro ⟨-, hsome, -⟩
              rw [metaBytes] at hsome
              rw [hdec] at hsome
              cases hsome
          | some m0 =>
            constructor
            · intro h
              cases h
              exact ⟨hw, by rw [metaBytes, hdec], rfl⟩
            · rintro ⟨-, hsome, rfl⟩
              rw [metaBytes, hdec] at hsome
              cases hsome
              rfl

/-- C7 witness: an 11-byte body declaring 2 metadata bytes and a 1-byte blob
parses successfully; the metadata decoder is instantiated with a function
accepting exactly the metadata slice of this body. -/
theorem parse_crate_framing_witness :
    parse_crate (fun bs => if bs = [123, 125] then some () else none)
      [2, 0, 0, 0, 123, 125, 1, 0, 0, 0, 55] = .ok ((), [55]) :=
  ((parse_crate_framing (fun bs => if bs = [123, 125] then some () else none)
    [2, 0, 0, 0, 123, 125, 1, 0, 0, 0, 55]).2 () [55]).mpr
    ⟨by unfold wellFramed; decide, by decide, by decide⟩

/-- Helper: splitting never produces the empty list of segments. -/
theorem splitOnNl_ne_nil (data : List Nat) : splitOnNl data ≠ [] := by
  induction data with
  | nil => simp [splitOnNl]
  | cons c rest ih =>
    by_cases h : c = 10
    · simp [splitOnNl, h]
    · simp only [splitOnNl, if_neg h]
      cases hs : splitOnNl rest with
      | nil => simp
      | cons s ss => simp

/-- Helper: every byte of every segment is a byte of the split stream. -/
theorem mem_splitOnNl (data : List Nat) (l : List Nat) (hl : l ∈ splitOnNl data)
    (b : Nat) (hb : b ∈ l) : b ∈ data := by
  induction data generalizing l with
  | nil =>
    simp [splitOnNl] at hl
    subst hl
    cases hb
  | cons c rest ih =>
    by_cases h : c = 10
    · simp only [splitOnNl, if_pos h, List.mem_cons] at hl
      rcases hl with rfl | hl
      · cases hb
      · exact List.mem_cons_of_mem c (ih l hl hb)
    · simp only [splitOnNl, if_neg h] at hl
      cases hs : splitOnNl rest with
      | nil => exact absurd hs (splitOnNl_ne_nil rest)
      | cons s ss =>
        rw [hs] at hl
        rcases List.mem_cons.mp hl with rfl | hl
        · rcases List.mem_cons.mp hb with rfl | hb
          · exact List.mem_cons_self b rest
          · exact List.mem_cons_of_mem c (ih s (by rw [hs]; exact List.mem_cons_self s ss) hb)
        · exact List.mem_cons_of_mem c (ih l (by rw [hs]; exact List.mem_cons_of_mem s hl) hb)

/-- Helper: a line without a carriage return is unchanged by the strip. -/
theorem stripCr_id (l : List Nat) (h : (13 : Nat) ∉ l) : stripCr l = l := by
  rw [stripCr, if_neg]
  intro hlast
  have h2 := List.dropLast_append_getLast? 13 (show (13 : Nat) ∈ l.getLast? from hlast)
  exact h (h2 ▸ List.mem_append_right l.dropLast (List.mem_singleton.mpr rfl))

/-- Helper: under the hypotheses of the reader-agreement theorem, the lines
seen by `BufRead::lines` are exactly the non-empty segments kept by the
splitting reader. -/
theorem rustLines_eq_filter (data : List Nat)
    (hcr : ∀ l ∈ splitOnNl data, (13 : Nat) ∉ l)
    (hmid : ∀ l ∈ (splitOnNl data).dropLast, l ≠ []) :
    rustLines data = (splitOnNl data).filter (fun l => !l.isEmpty) := by
  have hne : splitOnNl data ≠ [] := splitOnNl_ne_nil data
  have hsplit : (splitOnNl data).dropLast ++ [(splitOnNl data).getLast hne] =
      splitOnNl data := List.dropLast_append_getLast hne
  have hmap : (splitOnNl data).dropLast.map stripCr = (splitOnNl data).dropLast := by
    rw [List.map_congr_left, List.map_id]
    intro l hl
    exact stripCr_id l (hcr l (List.dropLast_subset _ hl))
  have hfiltInit : (splitOnNl data).dropLast.filter (fun l => !l.isEmpty) =
      (splitOnNl data).dropLast := by
    rw [List.filter_eq_self]
    intro l hl
    simpa using hmid l hl
  have hlast : (splitOnNl data).getLast? = some ((splitOnNl data).getLast hne) :=
    List.getLast?_eq_getLast_of_ne_nil hne
  simp only [rustLines]
  rw [hlast, hmap]
  conv_rhs => rw [← hsplit]
  rw [List.filter_append, hfiltInit]
  congr 1
  cases hl : (splitOnNl data).getLast hne with
  | nil => simp
  | cons a t => simp

/-- Helper: the line traversal fails as a whole as soon as one line fails —
no partial prefix is returned. -/
theorem parseAll_eq_none_of_mem (f : List Nat → Option Entry)
    (l : List (List Nat)) (h : ∃ x ∈ l, f x = none) : parseAll f l = none := by
  induction l with
  | nil => simp at h
  | cons hd tl ih =>
    obtain ⟨x, hx, hfx⟩ := h
    rcases List.mem_cons.mp hx with rfl | hx
    · rw [parseAll, hfx]
    · rw [parseAll]
      cases hhd : f hd with
      | none => rfl
      | some b =>
        rw [ih ⟨x, hx, hfx⟩]

/-- C10 (amended): on every byte stream that contains no carriage-return
byte and no empty line before the final newline, the two index readers
compute the same result; and on any stream one of whose non-empty lines
fails to parse, both readers fail, returning no partial prefix.  The
agreement cannot be extended to all byte streams: the counterexample shows
the readers disagree on a stream with an empty line, which
`registry::read_index` skips and `index::read_index` feeds to the parser. -/
theorem read_index_agree (parse : List Nat → Option Entry) (data : List Nat)
    (hcr : (13 : Nat) ∉ data)
    (hmid : ∀ l ∈ (splitOnNl data).dropLast, l ≠ []) :
    registry_read_index parse data = index_read_index parse data ∧
    ((∃ l ∈ splitOnNl data, l ≠ [] ∧ parse l = none) →
      registry_read_index parse data = none ∧
      index_read_index parse data = none) := by
  have hcr2 : ∀ l ∈ splitOnNl data, (13 : Nat) ∉ l := by
    intro l hl hb
    exact hcr (mem_splitOnNl data l hl 13 hb)
  have heq : registry_read_index parse data = index_read_index parse data := by
    rw [registry_read_index, index_read_index, rustLines_eq_filter data hcr2 hmid]
  refine ⟨heq, fun ⟨l, hl, hlne, hlp⟩ => ?_⟩
  have hmem : l ∈ (splitOnNl data).filter (fun l => !l.isEmpty) := by
    rw [List.mem_filter]
    exact ⟨hl, by simpa using hlne⟩
  have hnone : registry_read_index parse data = none := by
    rw [registry_read_index]
    exact parseAll_eq_none_of_mem parse _ ⟨l, hmem, hlp⟩
  exact ⟨hnone, heq ▸ hnone⟩

/-- C10 witness: on the single-line stream `[65]` (no carriage returns, no
empty lines) the two readers agree; the line parser is instantiated with the
all-rejecting function, under which both readers reject the line. -/
theorem read_index_agree_witness :
    registry_read_index (fun _ => none) [65] =
      index_read_index (fun _ => none) [65] :=
  (read_index_agree (fun _ => none) [65] (by decide) (by decide)).1

/-- C10 counterexample: the one-byte stream consisting of a single newline.
`registry::read_index` drops the two empty segments and succeeds with the
empty entry list, while `index::read_index` feeds the empty line to the
parser and fails, because no JSON value can be parsed from the empty string.
The parser instantiation `fun _ => none` agrees with serde_json on the only
input it receives here (the empty line), so the two readers genuinely
disagree on this stream, falsifying the claim that they agree on every byte
stream. -/
theorem read_index_empty_line_cex :
    registry_read_index (fun _ => none) [10] = some [] ∧
    index_read_index (fun _ => none) [10] = none ∧
    registry_read_index (fun _ => none) [10] ≠
      index_read_index (fun _ => none) [10] := by
  refine ⟨rfl, rfl, by decide⟩

/-- Helper: the greatest element reported by `max?` on a linear order is a
member of the list and an upper bound of it. -/
theorem max?_mem_le {V : Type} [LinearOrder V] (l : List V) (v : V)
    (h : l.max? = some v) : v ∈ l ∧ ∀ w ∈ l, w ≤ v := by
  have : Std.Antisymm (α := V) (· ≤ ·) := ⟨fun h1 h2 => le_antisymm h1 h2⟩
  rw [List.max?_eq_some_iff] at h
  · exact h
  all_goals simp [le_total]

/-- Helper: a first-component-preserving `filterMap` yields a sublist of the
first components. -/
theorem filterMap_fst_sublist {V : Type}
    (f : String × List Entry → Option (String × V))
    (reg : List (String × List Entry))
    (hf : ∀ nc v, f nc = some v → v.1 = nc.1) :
    List.Sublist ((reg.filterMap f).map Prod.fst) (reg.map Prod.fst) := by
  induction reg with
  | nil => simp
  | cons hd tl ih =>
    cases hfh : f hd with
    | none =>
      rw [List.filterMap_cons_none hfh, List.map_cons]
      exact ih.cons hd.1
    | some v =>
      rw [List.filterMap_cons_some hfh, List.map_cons, List.map_cons,
        hf hd v hfh]
      exact ih.cons₂ hd.1

/-- C8 (amended): `search` returns, in stable discovery order truncated to
`per_page` (default 10), exactly the crates whose name contains the query as
a substring and whose index holds at least one parseable version, each
reported with the greatest parseable version of its index file; the reported
total counts those crates before truncation.  The restriction to crates with
a parseable version is forced by the counterexample: a matching crate none
of whose versions parse is dropped by the source and missing from the
total. -/
theorem search_characterization {V : Type} [LinearOrder V]
    (parse : String → Option V) (reg : List (String × List Entry))
    (q : String) (per_page : Option Nat) :
    (search parse reg q per_page).2 =
      (reg.filter (fun nc => containsStr nc.1 q &&
        (max_version parse nc.2).isSome)).length ∧
    (search parse reg q per_page).1.length =
      min (per_page.getD 10) (search parse reg q per_page).2 ∧
    (∀ nv ∈ (search parse reg q per_page).1,
      containsStr nv.1 q = true ∧
      ∃ es, (nv.1, es) ∈ reg ∧
        nv.2 ∈ es.filterMap (fun e => parse e.version) ∧
        ∀ w ∈ es.filterMap (fun e => parse e.version), w ≤ nv.2) ∧
    List.Sublist ((search parse reg q per_page).1.map Prod.fst)
      (reg.map Prod.fst) := by
  refine ⟨?_, ?_, ?_, ?_⟩
  · show (reg.filterMap _).length = _
    induction reg with
    | nil => rfl
    | cons hd tl ih =>
      by_cases hc : containsStr hd.1 q
      · cases hm : max_version parse hd.2 with
        | none =>
          simp [List.filterMap_cons, List.filter_cons, hc, hm, ih]
        | some v =>
          simp [List.filterMap_cons, List.filter_cons, hc, hm, ih]
      · simp [List.filterMap_cons, List.filter_cons, hc, ih]
  · show (List.take _ _).length = _
    rw [List.length_take]
    rfl
  · intro nv hnv
    have hmem : nv ∈ reg.filterMap (fun nc =>
        if containsStr nc.1 q then
          (max_version parse nc.2).map (fun v => (nc.1, v)) else none) :=
      List.mem_of_mem_take hnv
    obtain ⟨nc, hnc, hfnc⟩ := List.mem_filterMap.mp hmem
    by_cases hc : containsStr nc.1 q
    · rw [if_pos hc] at hfnc
      obtain ⟨v, hv, hnveq⟩ := Option.map_eq_some'.mp hfnc
      obtain ⟨hvmem, hvle⟩ := max?_mem_le _ v hv
      subst hnveq
      exact ⟨hc, nc.2, by simpa using hnc, hvmem, hvle⟩
    · rw [if_neg hc] at hfnc
      cases hfnc
  · show List.Sublist ((List.take _ _).map Prod.fst) _
    rw [List.map_take]
    refine (List.take_sublist _ _).trans ?_
    apply filterMap_fst_sublist
    intro nc v hfv
    by_cases hc : containsStr nc.1 q
    · rw [if_pos hc] at hfv
      obtain ⟨w, hw, hveq⟩ := Option.map_eq_some'.mp hfv
      subst hveq
      rfl
    · rw [if_neg hc] at hfv
      cases hfv

/-- Sample entry `foobar-0.2.0`. -/
def entryFoobar : Entry :=
  { entry0 with name := "foobar", version := "0.2.0" }

/-- C8 witness: with `foo-1.0.0` and `foobar-0.2.0` present, searching for
`foo` with `per_page = 1` reports as total the number of matching crates
with a parseable version, which is 2, while returning a single result. -/
theorem search_characterization_witness :
    (search semverSimple [("foo", [entry0]), ("foobar", [entryFoobar])] "foo"
      (some 1)).2 =
      ([("foo", [entry0]), ("foobar", [entryFoobar])].filter (fun nc =>
        containsStr nc.1 "foo" &&
          (max_version semverSimple nc.2).isSome)).length ∧
    (search semverSimple [("foo", [entry0]), ("foobar", [entryFoobar])] "foo"
      (some 1)).2 = 2 ∧
    (search semverSimple [("foo", [entry0]), ("foobar", [entryFoobar])] "foo"
      (some 1)).1.length = 1 :=
  ⟨(search_characterization semverSimple
      [("foo", [entry0]), ("foobar", [entryFoobar])] "foo" (some 1)).1,
    by decide, by decide⟩

/-- Sample entry whose version string is not a semver version. -/
def entryBadVer : Entry := { entry0 with version := "not-semver" }

/-- C8 counterexample: the crate `foo` matches the empty query (every name
contains the empty substring), yet because none of its versions parses as
semver — `semverSimple` agrees with the semver crate in rejecting the string
`not-semver` — the source drops the crate entirely: the result list is empty
and the reported total is 0, not the 1 matching crate the claim counts. -/
theorem search_unparseable_version_cex :
    ([("foo", [entryBadVer])].filter
      (fun nc : String × List Entry => containsStr nc.1 "")).length = 1 ∧
    search semverSimple [("foo", [entryBadVer])] "" none = ([], 0) := by
  refine ⟨by decide, by decide⟩

/-- Helper: decoding an encoded optional string restores it. -/
theorem getOptStr_encode (o : Option String) :
    getOptStr (some (encodeOptStr o)) = some o := by
  cases o <;> rfl

/-- Helper: decoding an encoded dependency kind restores it. -/
theorem decodeKind_encode (k : DependencyKind) :
    decodeKind (.str (kindTag k)) = some k := by
  cases k <;> rfl

/-- Helper: decoding an encoded string list restores it. -/
theorem decodeStrs_encode (xs : List String) :
    decodeStrs (xs.map .str) = some xs := by
  induction xs with
  | nil => rfl
  | cons x xs ih => simp [decodeStrs, getStr, ih]

/-- Helper: decoding an encoded dependency restores it. -/
theorem decodeDependency_encode (d : Dependency) :
    decodeDependency (.obj (encodeDependency d)) = some d := by
  have hcond : ((encodeDependency d).all
        (fun kv => dependencyKeys.contains kv.1) = true) ∧
      ((encodeDependency d).map Prod.fst).Nodup := ⟨rfl, by
        show (["name", "version_req", "features", "optional",
          "default_features", "target", "kind", "registry", "package"] :
          List String).Nodup
        decide⟩
  simp only [decodeDependency]
  rw [if_pos hcond]
  simp [encodeDependency, List.lookup, getStr, getBool, getOptStr_encode,
    decodeStrList, decodeStrs_encode, decodeKind_encode]

/-- Helper: decoding an encoded dependency list restores it. -/
theorem decodeDepList_encode (ds : List Dependency) :
    decodeDepList (ds.map (fun d => .obj (encodeDependency d))) = some ds := by
  induction ds with
  | nil => rfl
  | cons d ds ih => simp [decodeDepList, decodeDependency_encode, ih]

/-- Helper: decoding the encoded feature pairs restores them in order. -/
theorem decodeFeaturePairs_encode (fs : List (String × List String)) :
    decodeFeaturePairs (fs.map (fun kv => (kv.1, .arr (kv.2.map .str)))) =
      some fs := by
  induction fs with
  | nil => rfl
  | cons kv fs ih =>
    simp [decodeFeaturePairs, decodeStrList, decodeStrs_encode, ih]

/-- Helper: inserting a key greater than every key of a sorted map appends
it at the end. -/
theorem insertSorted_append (l : List (String × List String))
    (kv : String × List String) (h : ∀ x ∈ l, x.1 < kv.1) :
    insertSorted l kv = l ++ [kv] := by
  induction l with
  | nil => rfl
  | cons hd tl ih =>
    have hhd := h hd (List.mem_cons_self hd tl)
    rw [insertSorted, if_neg (by exact fun hlt => absurd hlt (not_lt.mpr hhd.le)),
      if_neg (by exact fun heq => absurd heq (ne_of_gt hhd))]
    rw [ih (fun x hx => h x (List.mem_cons_of_mem hd hx))]
    rfl

/-- Helper: folding ordered insertion over pairs with strictly ascending
keys rebuilds exactly that list. -/
theorem foldl_insertSorted (rest acc : List (String × List String))
    (hrest : rest.Pairwise (fun a b => a.1 < b.1))
    (hcross : ∀ a ∈ acc, ∀ r ∈ rest, a.1 < r.1) :
    rest.foldl insertSorted acc = acc ++ rest := by
  induction rest generalizing acc with
  | nil => simp
  | cons r rest ih =>
    rw [List.foldl_cons]
    rw [insertSorted_append acc r
      (fun x hx => hcross x hx r (List.mem_cons_self r rest))]
    rw [ih (acc ++ [r]) (List.Pairwise.of_cons hrest) ?_]
    · simp
    · intro a ha s hs
      rcases List.mem_append.mp ha with ha | ha
      · exact hcross a ha s (List.mem_cons_of_mem r hs)
      · rw [List.mem_singleton.mp ha]
        exact (List.pairwise_cons.mp hrest).1 s hs

/-- Helper: decoding the encoded features map restores it when its keys are
strictly sorted (as they are for a map coming from a `BTreeMap`). -/
theorem decodeFeatures_encode (fs : List (String × List String))
    (hs : fs.Pairwise (fun a b => a.1 < b.1)) :
    decodeFeatures (encodeFeatures fs) = some fs := by
  simp only [encodeFeatures, decodeFeatures, decodeFeaturePairs_encode,
    Option.map]
  rw [foldl_insertSorted fs [] hs (by intro a ha; cases ha)]
  rfl

/-- C5 (amended): the serde encoding of an index entry places the version
under `vers`, the dependency list under `deps`, the checksum under `cksum`,
and each dependency's requirement under `version_req` (not `req`: see the
counterexample); decoding accepts exactly these field names (the schema is
strict), and decoding an encoded entry restores it exactly, provided the
feature-map keys are strictly sorted, which is what the Rust `BTreeMap`
guarantees for every value it serialises. -/
theorem entry_json_roundtrip (e : Entry)
    (hsorted : e.features.Pairwise (fun a b => a.1 < b.1)) :
    (encodeEntry e).map Prod.fst =
      ["name", "vers", "deps", "cksum", "features", "yanked", "links"] ∧
    (∀ d : Dependency, (encodeDependency d).map Prod.fst =
      ["name", "version_req", "features", "optional", "default_features",
       "target", "kind", "registry", "package"]) ∧
    decodeEntry (.obj (encodeEntry e)) = some e := by
  refine ⟨rfl, fun d => rfl, ?_⟩
  have hcond : ((encodeEntry e).all (fun kv => entryKeys.contains kv.1) = true) ∧
      ((encodeEntry e).map Prod.fst).Nodup := ⟨rfl, by
        show (["name", "vers", "deps", "cksum", "features", "yanked",
          "links"] : List String).Nodup
        decide⟩
  simp only [decodeEntry]
  rw [if_pos hcond]
  simp [encodeEntry, List.lookup, getStr, getBool, getOptStr_encode,
    decodeDeps, decodeDepList_encode, decodeFeatures_encode e.features hsorted]

/-- Sample dependency with requirement `^1.0` on `serde`. -/
def dep0 : Dependency :=
  { name := "serde", version := "^1.0", features := [], optional := false,
    default_features := true, target := none, kind := .normal,
    registry := none, package := none }

/-- Sample entry with one dependency and one feature. -/
def entryWithDep : Entry :=
  { entry0 with dependencies := [dep0], features := [("default", ["std"])] }

/-- C5 witness: a concrete entry with a dependency and a feature decodes back
to itself after encoding. -/
theorem entry_json_roundtrip_witness :
    decodeEntry (.obj (encodeEntry entryWithDep)) = some entryWithDep :=
  (entry_json_roundtrip entryWithDep (by decide)).2.2

/-- C5 counterexample: the serde attribute on `index::Dependency` renames the
requirement field to `version_req`, not to the Cargo index name `req` the
claim states: the encoder emits no `req` field, and the strict decoder
rejects an otherwise well-formed dependency object that uses `req`. -/
theorem dependency_req_field_cex :
    (encodeDependency dep0).lookup "req" = none ∧
    (encodeDependency dep0).lookup "version_req" = some (.str "^1.0") ∧
    decodeDependency (.obj [("name", .str "serde"), ("req", .str "^1.0"),
      ("features", .arr []), ("optional", .bool false),
      ("default_features", .bool true), ("target", .null),
      ("kind", .str "normal"), ("registry", .null), ("package", .null)]) =
      none := by
  refine ⟨rfl, rfl, rfl⟩
